import Mathlib

/-!
A shallow embedding of the HTML tree builder and serializer of the `h`
package (files `html.go`, `render.go`, `utils.go`): node data model,
escaping, attribute rendering, element rendering and the pooled top-level
render, translated from the Go source.
-/

namespace Hyper

/-- Go's `unicode.IsSpace`, restricted to the code
points Go reports as white space (Latin-1 range plus the Unicode
White_Space code points). Used by `strings.TrimSpace`. -/
def goIsSpace (c : Char) : Bool :=
  c = '\t' || c = '\n' || c = (Char.ofNat 0x0B) || c = (Char.ofNat 0x0C) ||
  c = '\r' || c = ' ' || c.val = 0x85 || c.val = 0xA0 ||
  c.val = 0x1680 || (0x2000 ≤ c.val && c.val ≤ 0x200A) ||
  c.val = 0x2028 || c.val = 0x2029 || c.val = 0x202F ||
  c.val = 0x205F || c.val = 0x3000

/-- Go's `strings.TrimSpace`: remove leading and trailing white space. -/
def trimSpace (s : String) : String :=
  ⟨((s.data.dropWhile goIsSpace).reverse.dropWhile goIsSpace).reverse⟩

/-- The single-character replacements performed by Go's
`html.EscapeString` (its replacer maps `&` `'` `<` `>` `"` to
`&amp;` `&#39;` `&lt;` `&gt;` `&#34;`; every other character is copied). -/
def escapeChar (c : Char) : List Char :=
  if c = '&' then String.toList "&amp;"
  else if c = '\'' then String.toList "&#39;"
  else if c = '<' then String.toList "&lt;"
  else if c = '>' then String.toList "&gt;"
  else if c = '"' then String.toList "&#34;"
  else [c]

/-- Go's `html.EscapeString`: replace the five special characters, copy the
rest (the replacer scans left to right and never rescans its output). -/
def escapeString (s : String) : String :=
  ⟨(s.data.map escapeChar).flatten⟩

/-- Go's `strings.ReplaceAll v "\"" "&quot;"` as used for attribute values:
the pattern is a single character, so it is a character-wise map. -/
def escapeAttrValue (s : String) : String :=
  ⟨(s.data.map (fun c => if c = '"' then String.toList "&quot;" else [c])).flatten⟩

/-- The dynamic type of a Go `any` attribute value as inspected by
`renderAttrs`: a string, a bool, nil, or a value of any other type
(carrying the type name that `%T` would print). -/
inductive AttrValue where
  | str (s : String)
  | boolean (b : Bool)
  | nilValue
  | other (goType : String)
deriving DecidableEq, Repr

/-- The `attribute` struct: one key/value pair. -/
structure Attribute where
  key : String
  value : AttrValue
deriving DecidableEq, Repr

mutual
/-- The closed set of node variants the renderer special-cases:
`Element` (tag, IsVoid, Attrs, Children), `Text` (escaped on render) and
`RawText` (emitted verbatim). -/
inductive Node where
  | element (tag : String) (isVoid : Bool) (attrs : List Attribute) (children : NodeList)
  | text (s : String)
  | rawText (s : String)

/-- The `Children []Node` field of an element, as a mutually defined list
so that the render functions are structurally recursive. -/
inductive NodeList where
  | nil
  | cons (head : Node) (tail : NodeList)
end

/-- Conversion from an ordinary list of nodes to a `NodeList`. -/
def NodeList.ofList : List Node → NodeList
  | [] => .nil
  | n :: rest => .cons n (NodeList.ofList rest)

/-- The method `Element.renderAttrs`, in buffer-passing style: for each attribute,
trim the key and fail on an empty result, fail on a nil value, emit
` key="value"` for strings (value quote-escaped, key body-escaped),
` key` for true booleans, nothing for false booleans, and fail on any
other value type. The first error aborts. -/
def renderAttrs : List Attribute → String → Except String String
  | [], buf => .ok buf
  | attr :: rest, buf =>
    let k := trimSpace attr.key
    if k = "" then .error "empty/whitespace attribute key not allowed."
    else
      match attr.value with
      | .nilValue => .error ("attribute '" ++ k ++ "' has nil value")
      | .str v =>
          renderAttrs rest (buf ++ " " ++ escapeString k ++ "=\"" ++ escapeAttrValue v ++ "\"")
      | .boolean b =>
          renderAttrs rest (if b then buf ++ " " ++ escapeString k else buf)
      | .other goType =>
          .error ("attribute value must be string or bool, got " ++ goType ++ " for key '" ++ k ++ "'")

mutual
/-- One step of `Element.renderChildren`'s type switch together with the
body of `Element.renderElement` in the element case: an empty tag renders
the children transparently; otherwise open tag, attributes, `>`, then
(unless void) the children and the closing tag. `Text` appends its escaped
payload, `RawText` appends its payload verbatim. Buffer-passing: the
argument string is the bytes already in the scratch buffer. -/
def renderNode (n : Node) (buf : String) : Except String String :=
  match n with
  | .element tag isVoid attrs children =>
    if tag = "" then renderChildren children buf
    else
      match renderAttrs attrs (buf ++ "<" ++ tag) with
      | .error e => .error e
      | .ok buf1 =>
        if isVoid then .ok (buf1 ++ ">")
        else
          match renderChildren children (buf1 ++ ">") with
          | .error e => .error e
          | .ok buf3 => .ok (buf3 ++ "</" ++ tag ++ ">")
  | .text s => .ok (buf ++ escapeString s)
  | .rawText s => .ok (buf ++ s)
termination_by structural n

/-- The method `Element.renderChildren`: render each child in order into the buffer;
the first error aborts. -/
def renderChildren (children : NodeList) (buf : String) : Except String String :=
  match children with
  | .nil => .ok buf
  | .cons c rest =>
    match renderNode c buf with
    | .error e => .error e
    | .ok buf1 => renderChildren rest buf1
termination_by structural children
end

/-- The method `Element.renderElement`, applied to the fields of the element struct:
identical to the element case of `renderNode`. -/
def renderElement (tag : String) (isVoid : Bool) (attrs : List Attribute)
    (children : NodeList) (buf : String) : Except String String :=
  renderNode (.element tag isVoid attrs children) buf

/-- Rendering a node into an empty scratch buffer: the bytes a successful
top-level render delivers to the destination. -/
def renderToString (n : Node) : Except String String :=
  renderNode n ""

/-- The state `Element.Render` interacts with: the `bufferPool` (contents
of the available pooled buffers, front of the list checked out first) and
the destination writer, recorded as the list of `Write` calls made. -/
structure RenderState where
  pool : List String
  dest : List String
deriving DecidableEq, Repr

/-- The method `Element.Render`: check a scratch buffer out of the pool (`sync.Pool`
allocates a fresh empty one when the pool is empty), render the whole
element into it, and if that succeeded perform the single `w.Write` of the
accumulated bytes; the deferred block resets the buffer and returns it to
the pool on every path. Returns the new state and the error, if any. -/
def ElementRender (tag : String) (isVoid : Bool) (attrs : List Attribute)
    (children : NodeList) (s : RenderState) : RenderState × Option String :=
  let checkout : String × List String :=
    match s.pool with
    | [] => ("", [])
    | b :: bs => (b, bs)
  match renderElement tag isVoid attrs children checkout.1 with
  | .error e => ({ pool := "" :: checkout.2, dest := s.dest }, some e)
  | .ok out => ({ pool := "" :: checkout.2, dest := s.dest ++ [out] }, none)

/-- One variadic argument of `newElem`: an attribute batch (`KV`, a Go map
recorded here in its iteration order), a child node, a string, a
`fmt.Stringer` (recorded as the result of its `String()` call), or any
other value (recorded as its `fmt.Sprint` text). -/
inductive Arg where
  | kv (m : List (String × AttrValue))
  | node (n : Node)
  | str (s : String)
  | stringer (s : String)
  | other (s : String)

/-- A Go slice of `attribute` with its length and capacity: `data` is the
visible elements, `cap` the capacity of the backing array. -/
structure AttrSlice where
  data : List Attribute
  cap : Nat
deriving DecidableEq, Repr

/-- The capacity-growth loop of `fillAttrsWithKV`: `newCap := 1`, then
double until it reaches `required`. -/
def growLoop (required newCap : Nat) (h : 0 < newCap) : Nat :=
  if newCap < required then growLoop required (newCap * 2) (by omega) else newCap
termination_by required - newCap
decreasing_by omega

/-- The helper `fillAttrsWithKV`: on a nil slice, allocate with capacity `len(kv)`
and copy the batch in; otherwise grow the backing array to the power-of-two
capacity when the spare capacity cannot hold the batch, then append the
batch. The appends stay within capacity, so they never reallocate. -/
def fillAttrsWithKV (attrs : Option AttrSlice) (kv : List (String × AttrValue)) : AttrSlice :=
  match attrs with
  | none =>
      { data := kv.map (fun p => ⟨p.1, p.2⟩), cap := kv.length }
  | some s =>
      let s1 :=
        if s.cap - s.data.length < kv.length then
          { data := s.data, cap := growLoop (s.data.length + kv.length) 1 Nat.one_pos }
        else s
      { data := s1.data ++ kv.map (fun p => ⟨p.1, p.2⟩), cap := s1.cap }

/-- The constructor helper `newElem`: start from `Element{Tag: tag}` (nil attribute slice, no
children) and fold over the arguments: `KV` batches go through
`fillAttrsWithKV`, nodes are appended as children, strings, `Stringer`s
and all other values are appended as `Text` children. -/
def newElem (tag : String) (args : List Arg) : Node :=
  let st := args.foldl
    (fun (acc : Option AttrSlice × List Node) arg =>
      match arg with
      | .kv m => (some (fillAttrsWithKV acc.1 m), acc.2)
      | .node n => (acc.1, acc.2 ++ [n])
      | .str s => (acc.1, acc.2 ++ [.text s])
      | .stringer s => (acc.1, acc.2 ++ [.text s])
      | .other s => (acc.1, acc.2 ++ [.text s]))
    (none, [])
  Node.element tag false (match st.1 with | none => [] | some s => s.data) (NodeList.ofList st.2)

/-- The constructor helper `newVoidElem`: an element with `IsVoid: true` built from attribute
batches only. -/
def newVoidElem (tag : String) (attrs : List (List (String × AttrValue))) : Node :=
  let a := attrs.foldl (fun acc kv => some (fillAttrsWithKV acc kv)) none
  Node.element tag true (match a with | none => [] | some s => s.data) NodeList.nil

/-- The `Div` constructor. -/
def Div (args : List Arg) : Node := newElem "div" args

/-- The `Br` constructor (void element). -/
def Br (attrs : List (List (String × AttrValue))) : Node := newVoidElem "br" attrs

/-- The `Empty` constructor: an element with no tag, used for grouping. -/
def Empty (args : List Arg) : Node := newElem "" args

/-- An attribute the render-time validation rejects: key empty after
trimming, nil value, or a value that is neither string nor bool. -/
def badAttr (a : Attribute) : Bool :=
  trimSpace a.key = "" ||
    (match a.value with
     | .str _ => false
     | .boolean _ => false
     | .nilValue => true
     | .other _ => true)

/-- Whether the attribute list contains a malformed attribute. -/
def hasBadAttr (attrs : List Attribute) : Bool := attrs.any badAttr

mutual
/-- Whether rendering this node reaches a malformed attribute: attributes
are inspected only on elements with a non-empty tag, and children are
inspected only on non-void elements (an empty tag skips the attributes, a
void element skips the children). -/
def renderFails : Node → Bool
  | .element tag isVoid attrs children =>
      if tag = "" then childrenFail children
      else hasBadAttr attrs || (!isVoid && childrenFail children)
  | .text _ => false
  | .rawText _ => false

/-- Whether rendering some child in the list reaches a malformed attribute. -/
def childrenFail : NodeList → Bool
  | .nil => false
  | .cons c rest => renderFails c || childrenFail rest
end

/-- Whether an `Except` result is a success. -/
def renderOk : Except String String → Bool
  | .ok _ => true
  | .error _ => false

/-- Unescaping of the five entities Go's `html.EscapeString` produces, on
character lists: the behavior of the standard `html.UnescapeString` on
strings in the escaper's image (in such strings every `&` opens one of
these five entities). -/
def unescapeList : List Char → List Char
  | [] => []
  | c :: rest =>
    if c = '&' then
      match rest with
      | c1 :: c2 :: c3 :: rest3 =>
        if c1 = 'a' ∧ c2 = 'm' ∧ c3 = 'p' then
          match rest3 with
          | c4 :: rest4 =>
            if c4 = ';' then '&' :: unescapeList rest4
            else c :: unescapeList (c1 :: c2 :: c3 :: c4 :: rest4)
          | [] => c :: unescapeList (c1 :: c2 :: c3 :: [])
        else if c1 = 'l' ∧ c2 = 't' ∧ c3 = ';' then '<' :: unescapeList rest3
        else if c1 = 'g' ∧ c2 = 't' ∧ c3 = ';' then '>' :: unescapeList rest3
        else if c1 = '#' ∧ c2 = '3' then
          match rest3 with
          | c4 :: rest4 =>
            if c3 = '9' ∧ c4 = ';' then '\'' :: unescapeList rest4
            else if c3 = '4' ∧ c4 = ';' then '"' :: unescapeList rest4
            else c :: unescapeList (c1 :: c2 :: c3 :: c4 :: rest4)
          | [] => c :: unescapeList (c1 :: c2 :: c3 :: [])
        else c :: unescapeList (c1 :: c2 :: c3 :: rest3)
      | other => c :: unescapeList other
    else c :: unescapeList rest
termination_by l => l.length
decreasing_by all_goals simp_wf <;> omega

/-- String-level wrapper of `unescapeList`. -/
def unescapeString (s : String) : String :=
  ⟨unescapeList s.data⟩

/-- Emitting into a buffer only appends: rendering attributes into
`b ++ buf` yields the render into `buf` with `b` prefixed. -/
theorem renderAttrs_shift (attrs : List Attribute) (b : String) :
    ∀ buf, renderAttrs attrs (b ++ buf) = (renderAttrs attrs buf).map (fun r => b ++ r) := by
  induction attrs with
  | nil => intro buf; rfl
  | cons a rest ih =>
    intro buf
    simp only [renderAttrs]
    by_cases hk : trimSpace a.key = ""
    · simp [hk, Except.map]
    · simp only [hk, if_false]
      cases a.value with
      | nilValue => rfl
      | str v => simp only [String.append_assoc]; exact ih _
      | boolean bv =>
        cases bv with
        | true => simp only [if_true, String.append_assoc]; exact ih _
        | false => simp only [if_false]; exact ih _
      | other goType => rfl

mutual
/-- Emitting into a buffer only appends: rendering a node into `b ++ buf`
yields the render into `buf` with `b` prefixed. -/
theorem renderNode_shift (n : Node) (b : String) :
    ∀ buf, renderNode n (b ++ buf) = (renderNode n buf).map (fun r => b ++ r) := by
  cases n with
  | text s => intro buf; simp only [renderNode, Except.map, String.append_assoc]
  | rawText s => intro buf; simp only [renderNode, Except.map, String.append_assoc]
  | element tag isVoid attrs children =>
    intro buf
    by_cases ht : tag = ""
    · simp only [renderNode, ht, if_true]
      exact renderChildren_shift children b buf
    · simp only [renderNode, ht, if_false]
      rw [show b ++ buf ++ "<" ++ tag = b ++ (buf ++ "<" ++ tag) by simp [String.append_assoc],
        renderAttrs_shift attrs b (buf ++ "<" ++ tag)]
      cases hA : renderAttrs attrs (buf ++ "<" ++ tag) with
      | error e => rfl
      | ok buf1 =>
        simp only [Except.map]
        cases isVoid with
        | true => simp [Except.map, String.append_assoc]
        | false =>
          simp only [Bool.false_eq_true, if_false]
          rw [show b ++ buf1 ++ ">" = b ++ (buf1 ++ ">") by simp [String.append_assoc],
            renderChildren_shift children b (buf1 ++ ">")]
          cases hC : renderChildren children (buf1 ++ ">") with
          | error e => rfl
          | ok buf3 => simp only [Except.map, String.append_assoc]

/-- Emitting into a buffer only appends: rendering a child list into
`b ++ buf` yields the render into `buf` with `b` prefixed. -/
theorem renderChildren_shift (children : NodeList) (b : String) :
    ∀ buf, renderChildren children (b ++ buf) = (renderChildren children buf).map (fun r => b ++ r) := by
  cases children with
  | nil => intro buf; rfl
  | cons c rest =>
    intro buf
    simp only [renderChildren]
    rw [renderNode_shift c b buf]
    cases hN : renderNode c buf with
    | error e => rfl
    | ok buf1 => simp only [Except.map]; exact renderChildren_shift rest b buf1
end

/-- Attribute rendering succeeds exactly when no attribute in the list is
malformed, regardless of the buffer contents. -/
theorem renderAttrs_ok (attrs : List Attribute) :
    ∀ buf, renderOk (renderAttrs attrs buf) = !hasBadAttr attrs := by
  induction attrs with
  | nil => intro buf; rfl
  | cons a rest ih =>
    intro buf
    simp only [renderAttrs, hasBadAttr, List.any_cons]
    by_cases hk : trimSpace a.key = ""
    · simp [hk, renderOk, badAttr]
    · cases hv : a.value with
      | nilValue => simp [hk, renderOk, badAttr, hv]
      | str v =>
        simp only [hk, if_false, hasBadAttr] at ih ⊢
        simp [ih, badAttr, hk, hv]
      | boolean bv =>
        simp only [hk, if_false, hasBadAttr] at ih ⊢
        simp [ih, badAttr, hk, hv]
      | other goType => simp [hk, renderOk, badAttr, hv]

mutual
/-- Rendering a node succeeds exactly when its traversal reaches no
malformed attribute, regardless of the buffer contents. -/
theorem renderNode_ok (n : Node) :
    ∀ buf, renderOk (renderNode n buf) = !renderFails n := by
  cases n with
  | text s => intro buf; rfl
  | rawText s => intro buf; rfl
  | element tag isVoid attrs children =>
    intro buf
    by_cases ht : tag = ""
    · simp only [renderNode, renderFails, ht, if_true]
      exact renderChildren_ok children buf
    · simp only [renderNode, renderFails, ht, if_false]
      cases hA : renderAttrs attrs (buf ++ "<" ++ tag) with
      | error e =>
        have hbad := renderAttrs_ok attrs (buf ++ "<" ++ tag)
        rw [hA] at hbad
        have hX : hasBadAttr attrs = true := by simpa [renderOk] using hbad.symm
        simp [renderOk, hX]
      | ok buf1 =>
        have hgood := renderAttrs_ok attrs (buf ++ "<" ++ tag)
        rw [hA] at hgood
        have hX : hasBadAttr attrs = false := by simpa [renderOk] using hgood.symm
        cases isVoid with
        | true => simp [renderOk, hX]
        | false =>
          cases hC : renderChildren children (buf1 ++ ">") with
          | error e =>
            have h2 := renderChildren_ok children (buf1 ++ ">")
            rw [hC] at h2
            have hc2 : childrenFail children = true := by simpa [renderOk] using h2.symm
            simp [renderOk, hX, hc2, hC]
          | ok buf3 =>
            have h2 := renderChildren_ok children (buf1 ++ ">")
            rw [hC] at h2
            have hc2 : childrenFail children = false := by simpa [renderOk] using h2.symm
            simp [renderOk, hX, hc2, hC]

/-- Rendering a child list succeeds exactly when no child's traversal
reaches a malformed attribute, regardless of the buffer contents. -/
theorem renderChildren_ok (children : NodeList) :
    ∀ buf, renderOk (renderChildren children buf) = !childrenFail children := by
  cases children with
  | nil => intro buf; rfl
  | cons c rest =>
    intro buf
    simp only [renderChildren, childrenFail]
    cases hN : renderNode c buf with
    | error e =>
      have h1 := renderNode_ok c buf
      rw [hN] at h1
      have hf : renderFails c = true := by simpa [renderOk] using h1.symm
      simp [renderOk, hf]
    | ok buf1 =>
      have h1 := renderNode_ok c buf
      rw [hN] at h1
      have hf : renderFails c = false := by simpa [renderOk] using h1.symm
      simp [hf, renderChildren_ok rest buf1]
end

end Hyper

namespace Hyper
/-- The growth loop reaches at least `required`, is minimal (it returns
its start value or stays under `2 * required`), and only ever doubles its
start value. -/
theorem growLoop_spec (required : Nat) :
    ∀ (d newCap : Nat) (h : 0 < newCap), required - newCap ≤ d →
      required ≤ growLoop required newCap h ∧
      (growLoop required newCap h = newCap ∨ growLoop required newCap h < 2 * required) ∧
      ∃ k, growLoop required newCap h = newCap * 2 ^ k := by
  intro d
  induction d with
  | zero =>
    intro newCap h hle
    rw [growLoop, if_neg (by omega)]
    exact ⟨by omega, Or.inl rfl, ⟨0, by ring⟩⟩
  | succ d ih =>
    intro newCap h hle
    rw [growLoop]
    by_cases hc : newCap < required
    · rw [if_pos hc]
      obtain ⟨ih1, ih2, k, ih3⟩ := ih (newCap * 2) (by omega) (by omega)
      refine ⟨ih1, ?_, ⟨k + 1, ?_⟩⟩
      · rcases ih2 with h2 | h2
        · right; rw [h2]; omega
        · right; exact h2
      · rw [ih3]; ring
    · rw [if_neg hc]
      exact ⟨by omega, Or.inl rfl, ⟨0, by ring⟩⟩

/-- Dropping a satisfying prefix: if every element of `l1` satisfies `p`,
`dropWhile p` skips straight past it. -/
theorem dropWhile_all_append (p : Char → Bool) (l1 l2 : List Char)
    (h : ∀ c ∈ l1, p c = true) :
    (l1 ++ l2).dropWhile p = l2.dropWhile p := by
  induction l1 with
  | nil => rfl
  | cons c r ih =>
    simp only [List.cons_append, List.dropWhile_cons, h c (List.mem_cons_self c r), if_true]
    exact ih (fun x hx => h x (List.mem_cons_of_mem c hx))

/-- The two-sided trim of a list padded on both sides with satisfying
characters equals the trim of the middle. -/
theorem trim_pad_list (p : Char → Bool) (w1 w2 kd : List Char)
    (h1 : ∀ c ∈ w1, p c = true) (h2 : ∀ c ∈ w2, p c = true) :
    (((w1 ++ (kd ++ w2)).dropWhile p).reverse.dropWhile p).reverse
      = ((kd.dropWhile p).reverse.dropWhile p).reverse := by
  rw [dropWhile_all_append p w1 (kd ++ w2) h1]
  by_cases hk : kd.dropWhile p = []
  · have hkall : ∀ c ∈ kd, p c = true := List.dropWhile_eq_nil_iff.mp hk
    have : (kd ++ w2).dropWhile p = w2.dropWhile p := dropWhile_all_append p kd w2 hkall
    rw [this, List.dropWhile_eq_nil_iff.mpr h2, hk]
  · have : (kd ++ w2).dropWhile p = kd.dropWhile p ++ w2 := by
      rw [List.dropWhile_append, if_neg (by simpa [List.isEmpty_iff] using hk)]
    rw [this, List.reverse_append]
    rw [dropWhile_all_append p w2.reverse (kd.dropWhile p).reverse
      (fun c hc => h2 c (List.mem_reverse.mp hc))]

/-- Go's `strings.TrimSpace` removes white-space padding on either side of a key. -/
theorem trimSpace_pad (w1 w2 k : String)
    (h1 : ∀ c ∈ w1.data, goIsSpace c = true) (h2 : ∀ c ∈ w2.data, goIsSpace c = true) :
    trimSpace (w1 ++ k ++ w2) = trimSpace k := by
  apply String.ext
  show (((w1 ++ k ++ w2).data.dropWhile goIsSpace).reverse.dropWhile goIsSpace).reverse
      = ((k.data.dropWhile goIsSpace).reverse.dropWhile goIsSpace).reverse
  rw [show (w1 ++ k ++ w2).data = w1.data ++ (k.data ++ w2.data) by
    simp [String.data_append]]
  exact trim_pad_list goIsSpace w1.data w2.data k.data h1 h2

theorem escapeChar_amp : escapeChar '&' = ['&', 'a', 'm', 'p', ';'] := rfl

theorem escapeChar_lt : escapeChar '<' = ['&', 'l', 't', ';'] := rfl

theorem escapeChar_gt : escapeChar '>' = ['&', 'g', 't', ';'] := rfl

theorem escapeChar_quot : escapeChar '\'' = ['&', '#', '3', '9', ';'] := rfl

theorem escapeChar_dquot : escapeChar '"' = ['&', '#', '3', '4', ';'] := rfl

theorem unescapeList_amp (l : List Char) :
    unescapeList ('&' :: 'a' :: 'm' :: 'p' :: ';' :: l) = '&' :: unescapeList l := by
  simp +decide [unescapeList]

theorem unescapeList_lt (l : List Char) :
    unescapeList ('&' :: 'l' :: 't' :: ';' :: l) = '<' :: unescapeList l := by
  conv_lhs => rw [unescapeList.eq_def]
  simp +decide

theorem unescapeList_gt (l : List Char) :
    unescapeList ('&' :: 'g' :: 't' :: ';' :: l) = '>' :: unescapeList l := by
  conv_lhs => rw [unescapeList.eq_def]
  simp +decide

theorem unescapeList_quot (l : List Char) :
    unescapeList ('&' :: '#' :: '3' :: '9' :: ';' :: l) = '\'' :: unescapeList l := by
  simp +decide [unescapeList]

theorem unescapeList_dquot (l : List Char) :
    unescapeList ('&' :: '#' :: '3' :: '4' :: ';' :: l) = '"' :: unescapeList l := by
  simp +decide [unescapeList]

/-- A character other than `&` is copied unchanged by the unescaper. -/
theorem unescapeList_plain (c : Char) (l : List Char) (h : c ≠ '&') :
    unescapeList (c :: l) = c :: unescapeList l := by
  conv_lhs => rw [unescapeList.eq_def]
  simp [h]

/-- Unescaping inverts escaping, character list by character list. -/
theorem unescape_escape_list (cs : List Char) :
    unescapeList ((cs.map escapeChar).flatten) = cs := by
  induction cs with
  | nil => simp [unescapeList]
  | cons c rest ih =>
    simp only [List.map_cons, List.flatten_cons]
    by_cases h1 : c = '&'
    · subst h1; rw [escapeChar_amp]; simpa [unescapeList_amp] using ih
    · by_cases h2 : c = '<'
      · subst h2; rw [escapeChar_lt]; simpa [unescapeList_lt] using ih
      · by_cases h3 : c = '>'
        · subst h3; rw [escapeChar_gt]; simpa [unescapeList_gt] using ih
        · by_cases h4 : c = '\''
          · subst h4; rw [escapeChar_quot]; simpa [unescapeList_quot] using ih
          · by_cases h5 : c = '"'
            · subst h5; rw [escapeChar_dquot]; simpa [unescapeList_dquot] using ih
            · rw [show escapeChar c = [c] by simp [escapeChar, h1, h2, h3, h4, h5]]
              rw [List.cons_append, List.nil_append, unescapeList_plain c _ h1, ih]

end Hyper

namespace Hyper

/-- Rendering into any buffer is rendering into the empty buffer with the
buffer contents prefixed. -/
theorem renderNode_buf (n : Node) (buf : String) :
    renderNode n buf = (renderToString n).map (fun r => buf ++ r) := by
  conv_lhs => rw [← String.append_empty buf]
  exact renderNode_shift n buf ""

/-- C1: a string child of a container element renders with the five
characters `&` `<` `>` `'` `"` escaped to `&amp;` `&lt;` `&gt;` `&#39;`
`&#34;`, while a `RawText` child with the same payload is emitted
byte-for-byte; in particular `Div("<script>")` renders as
`<div>&lt;script&gt;</div>` and `Div(RawText("<script>"))` as
`<div><script></div>`. -/
theorem c1_escaped_text_vs_raw_child (tag s : String) (h : tag ≠ "") :
    renderToString (newElem tag [Arg.str s])
      = .ok ("<" ++ tag ++ ">" ++ escapeString s ++ "</" ++ tag ++ ">") ∧
    renderToString (newElem tag [Arg.node (.rawText s)])
      = .ok ("<" ++ tag ++ ">" ++ s ++ "</" ++ tag ++ ">") ∧
    escapeString "&<>'\"" = "&amp;&lt;&gt;&#39;&#34;" ∧
    renderToString (Div [Arg.str "<script>"]) = .ok "<div>&lt;script&gt;</div>" ∧
    renderToString (Div [Arg.node (.rawText "<script>")]) = .ok "<div><script></div>" := by
  refine ⟨?_, ?_, rfl, rfl, rfl⟩
  · show renderNode (Node.element tag false [] (.cons (.text s) .nil)) "" = _
    simp [renderNode, renderChildren, renderAttrs, h, String.empty_append, String.append_assoc]
  · show renderNode (Node.element tag false [] (.cons (.rawText s) .nil)) "" = _
    simp [renderNode, renderChildren, renderAttrs, h, String.empty_append, String.append_assoc]

theorem c1_witness : ("div" : String) ≠ "" ∧
    renderToString (newElem "div" [Arg.str "a&b"])
      = .ok ("<" ++ "div" ++ ">" ++ escapeString "a&b" ++ "</" ++ "div" ++ ">") :=
  ⟨by decide, (c1_escaped_text_vs_raw_child "div" "a&b" (by decide)).1⟩

/-- C2 counterexample: the tree `Empty(KV{"": nil})` contains a malformed
attribute (empty key and nil value), yet rendering succeeds, because an
element with an empty tag never renders its attributes. -/
theorem c2_counterexample_empty_tag_attr :
    badAttr ⟨"", AttrValue.nilValue⟩ = true ∧
    Empty [Arg.kv [("", AttrValue.nilValue)]]
      = Node.element "" false [⟨"", AttrValue.nilValue⟩] NodeList.nil ∧
    renderToString (Empty [Arg.kv [("", AttrValue.nilValue)]]) = .ok "" :=
  ⟨by decide, rfl, rfl⟩

/-- C2 (amended): rendering returns an error exactly when the traversal
reaches a malformed attribute — one on a non-empty-tag element that is not
skipped, where attributes of empty-tag elements and children of void
elements are never reached; text and raw-text nodes never fail, and
construction is total. -/
theorem c2_error_iff_malformed_reached (n : Node) (buf : String) :
    (∃ e, renderNode n buf = .error e) ↔ renderFails n = true := by
  have h := renderNode_ok n buf
  cases hr : renderNode n buf with
  | error e =>
    rw [hr] at h
    have hf : renderFails n = true := by simpa [renderOk] using h.symm
    exact iff_of_true ⟨e, rfl⟩ hf
  | ok v =>
    rw [hr] at h
    have hf : renderFails n = false := by simpa [renderOk] using h.symm
    constructor
    · rintro ⟨e, he⟩
      exact absurd he (by simp)
    · intro hcontra
      rw [hf] at hcontra
      exact absurd hcontra (by simp)

/-- C3: a top-level `Element.Render` returns the buffer to the pool reset
on every path, and either fails having written nothing to the destination,
or succeeds delivering the accumulated bytes in exactly one write. -/
theorem c3_single_write_and_pool_reset (tag : String) (isVoid : Bool)
    (attrs : List Attribute) (children : NodeList) (s : RenderState) :
    (ElementRender tag isVoid attrs children s).1.pool = "" :: s.pool.tail ∧
    ((∃ e, (ElementRender tag isVoid attrs children s).2 = some e ∧
        (ElementRender tag isVoid attrs children s).1.dest = s.dest) ∨
     ((ElementRender tag isVoid attrs children s).2 = none ∧
      ∃ out, (ElementRender tag isVoid attrs children s).1.dest = s.dest ++ [out])) := by
  unfold ElementRender
  cases hp : s.pool with
  | nil =>
    cases hr : renderElement tag isVoid attrs children "" with
    | error e => simp only [hr]; simp
    | ok out => simp only [hr]; simp
  | cons b bs =>
    cases hr : renderElement tag isVoid attrs children b with
    | error e => simp only [hr]; simp
    | ok out => simp only [hr]; simp

/-- C4: a well-formed boolean-true attribute emits a space and the bare
escaped key, a boolean-false attribute emits nothing, and a string
attribute emits ` key="value"` with only the double quote escaped in the
value (single quotes, angle brackets and ampersands pass through). -/
theorem c4_attribute_value_forms (key v buf : String) (h : trimSpace key ≠ "") :
    renderAttrs [⟨key, .boolean true⟩] buf = .ok (buf ++ " " ++ escapeString (trimSpace key)) ∧
    renderAttrs [⟨key, .boolean false⟩] buf = .ok buf ∧
    renderAttrs [⟨key, .str v⟩] buf
      = .ok (buf ++ " " ++ escapeString (trimSpace key) ++ "=\"" ++ escapeAttrValue v ++ "\"") ∧
    escapeAttrValue "a\"b'<>&" = "a&quot;b'<>&" := by
  refine ⟨?_, ?_, ?_, rfl⟩ <;> simp [renderAttrs, h]

theorem c4_witness : trimSpace "id" ≠ "" ∧
    renderAttrs [⟨"id", AttrValue.str "x"⟩] ""
      = .ok ("" ++ " " ++ escapeString (trimSpace "id") ++ "=\"" ++ escapeAttrValue "x" ++ "\"") :=
  ⟨by decide, (c4_attribute_value_forms "id" "x" "" (by decide)).2.2.1⟩

/-- C5: a void element with a non-empty tag renders its open tag with
attributes and stops: attached children change nothing, no closing tag is
emitted, and `Br()` renders as `<br>`. -/
theorem c5_void_ignores_children (tag : String) (attrs : List Attribute)
    (children : NodeList) (buf : String) (h : tag ≠ "") :
    renderNode (.element tag true attrs children) buf
      = renderNode (.element tag true attrs .nil) buf ∧
    renderNode (.element tag true attrs children) buf
      = (renderAttrs attrs (buf ++ "<" ++ tag)).map (fun r => r ++ ">") ∧
    renderToString (Br []) = .ok "<br>" ∧
    renderToString (.element "br" true [] (.cons (.text "X") .nil)) = renderToString (Br []) := by
  have key : ∀ cs : NodeList, renderNode (.element tag true attrs cs) buf
      = (renderAttrs attrs (buf ++ "<" ++ tag)).map (fun r => r ++ ">") := by
    intro cs
    simp only [renderNode]
    rw [if_neg h]
    cases hA : renderAttrs attrs (buf ++ "<" ++ tag) with
    | error e => simp [Except.map]
    | ok b1 => simp [Except.map]
  exact ⟨(key children).trans (key .nil).symm, key children, rfl, rfl⟩

theorem c5_witness : ("br" : String) ≠ "" ∧
    renderNode (.element "br" true [] (.cons (.text "X") .nil)) ""
      = renderNode (.element "br" true [] .nil) "" :=
  ⟨by decide, (c5_void_ignores_children "br" [] (.cons (.text "X") .nil) "" (by decide)).1⟩

/-- C6: an element with an empty tag renders as the concatenation of its
children's independent renderings, with no wrapping markup and no
attribute output. -/
theorem c6_empty_tag_concat (A B : Node) (isVoid : Bool) (attrs : List Attribute)
    (a b : String) (hA : renderToString A = .ok a) (hB : renderToString B = .ok b) :
    renderToString (.element "" isVoid attrs (.cons A (.cons B .nil))) = .ok (a ++ b) ∧
    (∀ buf, renderNode (.element "" isVoid attrs (.cons A (.cons B .nil))) buf
        = renderChildren (.cons A (.cons B .nil)) buf) := by
  constructor
  · have hB2 : renderNode B a = Except.ok (a ++ b) := by
      have hshift := renderNode_buf B a
      rw [hB] at hshift
      simpa [Except.map] using hshift
    simp only [renderToString] at hA ⊢
    have h1 : renderNode (.element "" isVoid attrs (.cons A (.cons B .nil))) ""
        = renderChildren (.cons A (.cons B .nil)) "" := by
      simp [renderNode]
    rw [h1]
    calc renderChildren (.cons A (.cons B .nil)) ""
        = renderChildren (.cons B .nil) a := by simp [renderChildren, hA]
      _ = Except.ok (a ++ b) := by simp [renderChildren, hB2]
  · intro buf
    simp [renderNode]

theorem c6_witness :
    renderToString (Node.text "x") = .ok "x" ∧
    renderToString (Node.rawText "y") = .ok "y" ∧
    renderToString (.element "" false [] (.cons (.text "x") (.cons (.rawText "y") .nil)))
      = .ok ("x" ++ "y") :=
  ⟨rfl, rfl, (c6_empty_tag_concat (Node.text "x") (Node.rawText "y") false [] "x" "y" rfl rfl).1⟩

/-- C7: escaping is a total function inverted by the standard entity
unescaping: unescaping the rendered output of a text node recovers the
original string. -/
theorem c7_escape_roundtrip (s : String) :
    renderToString (Node.text s) = .ok (escapeString s) ∧
    unescapeString (escapeString s) = s := by
  constructor
  · simp [renderToString, renderNode, String.empty_append]
  · exact String.ext (unescape_escape_list s.data)

/-- C8: appending a non-empty attribute batch that does not fit in the
spare capacity grows the backing array to the least power of two at least
the required size, preserving the existing attributes in order followed by
the batch. -/
theorem c8_fill_attrs_growth (s : AttrSlice) (kv : List (String × AttrValue))
    (hk : kv ≠ []) (hlen : s.data.length ≤ s.cap)
    (hcap : s.cap - s.data.length < kv.length) :
    (fillAttrsWithKV (some s) kv).data = s.data ++ kv.map (fun p => ⟨p.1, p.2⟩) ∧
    (∃ j, (fillAttrsWithKV (some s) kv).cap = 2 ^ j) ∧
    s.data.length + kv.length ≤ (fillAttrsWithKV (some s) kv).cap ∧
    (fillAttrsWithKV (some s) kv).cap < 2 * (s.data.length + kv.length) := by
  have hkpos : 0 < kv.length := List.length_pos.mpr hk
  obtain ⟨h1, h2, k, h3⟩ :=
    growLoop_spec (s.data.length + kv.length) (s.data.length + kv.length)
      1 Nat.one_pos (by omega)
  have hred : fillAttrsWithKV (some s) kv
      = { data := s.data ++ kv.map (fun p => ⟨p.1, p.2⟩),
          cap := growLoop (s.data.length + kv.length) 1 Nat.one_pos } := by
    simp only [fillAttrsWithKV]
    rw [if_pos hcap]
  rw [hred]
  refine ⟨rfl, ⟨k, by rw [h3]; ring⟩, h1, ?_⟩
  rcases h2 with h2 | h2
  · show growLoop (s.data.length + kv.length) 1 Nat.one_pos < 2 * (s.data.length + kv.length)
    rw [h2] at h1 ⊢
    omega
  · exact h2

theorem c8_witness :
    ([("b", AttrValue.str "v"), ("c", AttrValue.boolean false)]
      ≠ ([] : List (String × AttrValue))) ∧
    (fillAttrsWithKV (some ⟨[⟨"a", AttrValue.boolean true⟩], 1⟩)
        [("b", AttrValue.str "v"), ("c", AttrValue.boolean false)]).data
      = [⟨"a", AttrValue.boolean true⟩]
          ++ [("b", AttrValue.str "v"), ("c", AttrValue.boolean false)].map
              (fun p => (⟨p.1, p.2⟩ : Attribute)) :=
  ⟨by decide,
    (c8_fill_attrs_growth ⟨[⟨"a", AttrValue.boolean true⟩], 1⟩
      [("b", AttrValue.str "v"), ("c", AttrValue.boolean false)]
      (by decide) (by decide) (by decide)).1⟩

/-- C9: rendering is deterministic and state-independent: two top-level
renders of the same tree from states whose pooled buffers are reset
return the same error outcome and append the same writes to their
destinations, and rendering into any buffer equals the render into a
fresh buffer prefixed by it. -/
theorem c9_render_deterministic (tag : String) (isVoid : Bool) (attrs : List Attribute)
    (children : NodeList) (s1 s2 : RenderState)
    (h1 : s1.pool.all (fun x => x == "") = true)
    (h2 : s2.pool.all (fun x => x == "") = true) :
    (ElementRender tag isVoid attrs children s1).2
      = (ElementRender tag isVoid attrs children s2).2 ∧
    (ElementRender tag isVoid attrs children s1).1.dest.drop s1.dest.length
      = (ElementRender tag isVoid attrs children s2).1.dest.drop s2.dest.length ∧
    (∀ buf, renderNode (.element tag isVoid attrs children) buf
        = (renderToString (.element tag isVoid attrs children)).map (fun r => buf ++ r)) := by
  have key : ∀ st : RenderState, st.pool.all (fun x => x == "") = true →
      ((ElementRender tag isVoid attrs children st).2
          = (match renderElement tag isVoid attrs children "" with
             | .error e => some e
             | .ok _ => none)) ∧
      ((ElementRender tag isVoid attrs children st).1.dest.drop st.dest.length
          = (match renderElement tag isVoid attrs children "" with
             | .error _ => []
             | .ok out => [out])) := by
    intro st hst
    unfold ElementRender
    cases hp : st.pool with
    | nil =>
      cases hr : renderElement tag isVoid attrs children "" with
      | error e => simp [hr, List.drop_length]
      | ok out => simp [hr, List.drop_left]
    | cons bh bt =>
      rw [hp] at hst
      simp only [List.all_cons, Bool.and_eq_true, beq_iff_eq] at hst
      rw [hst.1]
      cases hr : renderElement tag isVoid attrs children "" with
      | error e => simp [hr, List.drop_length]
      | ok out => simp [hr, List.drop_left]
  refine ⟨((key s1 h1).1).trans ((key s2 h2).1).symm,
    ((key s1 h1).2).trans ((key s2 h2).2).symm, ?_⟩
  intro buf
  exact renderNode_buf (.element tag isVoid attrs children) buf

theorem c9_witness :
    (([] : List String).all (fun x => x == "") = true) ∧
    ((([""] : List String)).all (fun x => x == "") = true) ∧
    (ElementRender "p" false [] (.cons (.text "hi") .nil) ⟨[], []⟩).2
      = (ElementRender "p" false [] (.cons (.text "hi") .nil) ⟨[""], ["x"]⟩).2 ∧
    (ElementRender "p" false [] (.cons (.text "hi") .nil) ⟨[], []⟩).1.dest.drop
        (⟨[], []⟩ : RenderState).dest.length
      = (ElementRender "p" false [] (.cons (.text "hi") .nil) ⟨[""], ["x"]⟩).1.dest.drop
        (⟨[""], ["x"]⟩ : RenderState).dest.length :=
  ⟨by decide, by decide,
    (c9_render_deterministic "p" false [] (.cons (.text "hi") .nil)
      ⟨[], []⟩ ⟨[""], ["x"]⟩ (by decide) (by decide)).1,
    (c9_render_deterministic "p" false [] (.cons (.text "hi") .nil)
      ⟨[], []⟩ ⟨[""], ["x"]⟩ (by decide) (by decide)).2.1⟩

/-- C10: surrounding white space in an attribute key is silently stripped
at render time: a key padded with white space renders exactly like the
trimmed key, for string values and true booleans; in particular the key
`" class "` emits ` class="v"`. -/
theorem c10_attr_key_trimmed (w1 w2 k v buf : String)
    (h1 : w1.data.all goIsSpace = true) (h2 : w2.data.all goIsSpace = true) :
    trimSpace (w1 ++ k ++ w2) = trimSpace k ∧
    renderAttrs [⟨w1 ++ k ++ w2, .str v⟩] buf = renderAttrs [⟨k, .str v⟩] buf ∧
    renderAttrs [⟨w1 ++ k ++ w2, .boolean true⟩] buf
      = renderAttrs [⟨k, .boolean true⟩] buf ∧
    renderAttrs [⟨" class ", AttrValue.str "v"⟩] "" = .ok " class=\"v\"" := by
  have ha1 : ∀ c ∈ w1.data, goIsSpace c = true := by
    intro c hc
    exact List.all_eq_true.mp h1 c hc
  have ha2 : ∀ c ∈ w2.data, goIsSpace c = true := by
    intro c hc
    exact List.all_eq_true.mp h2 c hc
  have ht : trimSpace (w1 ++ k ++ w2) = trimSpace k := trimSpace_pad w1 w2 k ha1 ha2
  refine ⟨ht, ?_, ?_, rfl⟩
  · simp only [renderAttrs, ht]
  · simp only [renderAttrs, ht]

theorem c10_witness :
    (" ".data.all goIsSpace = true) ∧
    ("\t".data.all goIsSpace = true) ∧
    trimSpace (" " ++ "class" ++ "\t") = trimSpace "class" ∧
    renderAttrs [⟨" " ++ "class" ++ "\t", AttrValue.str "v"⟩] ""
      = renderAttrs [⟨"class", AttrValue.str "v"⟩] "" :=
  ⟨by decide, by decide,
    (c10_attr_key_trimmed " " "\t" "class" "v" "" (by decide) (by decide)).1,
    (c10_attr_key_trimmed " " "\t" "class" "v" "" (by decide) (by decide)).2.1⟩

end Hyper
